import Mathlib

/-!
Formal model of the reference-graph fetch engine for the NCAA basketball
data pipeline.  The executable engine is not part of the repository
sources; its data model, detail fetcher, paginated lister and concurrency
scheduler are modelled from the specification, while the endpoint path
templates and the list client configuration are taken from the repository
documents.
-/

namespace NcaaPipeline

/-- JSON document model: the API serves loosely typed JSON bodies. -/
inductive Doc where
  | null : Doc
  | bool : Bool → Doc
  | num : Int → Doc
  | str : String → Doc
  | arr : List Doc → Doc
  | obj : List (String × Doc) → Doc

/-- First-match lookup of a field name in an association list of fields. -/
def lookupField : List (String × Doc) → String → Option Doc
  | [], _ => none
  | (k, v) :: rest, key => if k = key then some v else lookupField rest key

/-- Top-level field lookup in a document; none on non-objects. -/
def Doc.lookup : Doc → String → Option Doc
  | Doc.obj fs, key => lookupField fs key
  | _, _ => none

/-- Modelled from the spec: a Ref Pointer is a typed reference to a remote
detail resource together with the inherited chain of ancestor keys (the
engine source espn_source.py is absent from the repository). -/
structure RefPointer where
  url : String
  ancestor_keys : List (String × String)
  resource_kind : String

/-- Modelled from the spec: a Detail Record is the result of fetching one
Ref Pointer, carrying a composite primary key, the foreign keys relevant
to its resource kind, the key-augmented payload and the refs discovered
inside the payload. -/
structure DetailRecord where
  kind : String
  primary_key : List (String × String)
  foreign_keys : List (String × String)
  payload : Doc
  emitted_refs : List RefPointer

/-- Modelled from the spec: causes of a failed detail GET (network error,
non-2xx status, or JSON parse error). -/
inductive FetchCause where
  | network : FetchCause
  | httpStatus : Nat → FetchCause
  | parseError : FetchCause

/-- Outcome of one HTTP GET against the mocked API surface. -/
inductive FetchOutcome where
  | ok : Doc → FetchOutcome
  | err : FetchCause → FetchOutcome

/-- Modelled from the spec: the per-item error taxonomy written to the
Failure Sink. -/
inductive EngineError where
  | detailFetchError : String → FetchCause → List (String × String) → EngineError
  | keyDerivationError : String → List (String × String) → EngineError

/-- Modelled from the spec: the static configuration of one resource kind,
giving the name under which its primary key enters descendant key chains,
which ancestor keys are relevant to it, and which payload fields hold
child ref pointers together with the child resource kind. -/
structure ResourceSpec where
  idField : String
  relevantKeys : String → Bool
  refFields : List (String × String)

/-- Reads a string identifier out of an optional document value; JSON null
or a missing field yields none, so derived keys are never null. -/
def idFromDoc : Option Doc → Option String
  | some (Doc.str s) => some s
  | some (Doc.num n) => some (toString n)
  | _ => none

/-- Modelled from the spec: the id or number field of the resource itself
is the authoritative source of its own primary key value. -/
def ownIdValue (d : Doc) : Option String :=
  match idFromDoc (d.lookup "id") with
  | some v => some v
  | none => idFromDoc (d.lookup "number")

/-- Modelled from the spec: fallback derivation of a key value from the
trailing path segment of the fetched URL. -/
def trailingSegment (url : String) : Option String :=
  match (url.splitOn "/").reverse with
  | [] => none
  | s :: _ => if s = "" then none else some s

/-- Modelled from the spec: primary key derivation policy, own id or
number field first, trailing URL path segment as fallback. -/
def derivePrimaryKeyValue (d : Doc) (url : String) : Option String :=
  match ownIdValue d with
  | some v => some v
  | none => trailingSegment url

/-- Foreign key field naming from the repository documents: foreign keys
carry the fk suffix. -/
def fkName (k : String) : String := k ++ "_fk"

/-- Modelled from the spec: the foreign keys of a record are the subset of
its inherited ancestor keys relevant to its resource kind. -/
def foreignKeysFor (cfg : ResourceSpec) (ancestors : List (String × String)) :
    List (String × String) :=
  (ancestors.filter (fun kv => cfg.relevantKeys kv.1)).map (fun kv => (fkName kv.1, kv.2))

/-- Modelled from the spec: key augmentation adds the key fields to a
parsed object payload; the added fields take precedence on lookup and all
original fields are kept. -/
def augment (keys : List (String × String)) : Doc → Doc
  | Doc.obj fs => Doc.obj (keys.map (fun kv => (kv.1, Doc.str kv.2)) ++ fs)
  | d => d

/-- Extracts the absolute URL held by a ref object stored under the given
field of a payload. -/
def refTarget (d : Doc) (field : String) : Option String :=
  match d.lookup field with
  | some v =>
    match v.lookup "$ref" with
    | some (Doc.str u) => some u
    | _ => none
  | none => none

/-- Modelled from the spec: refs discovered inside a payload, each
inheriting the full key chain of the record plus its own primary key
appended. -/
def childRefs (cfg : ResourceSpec) (pkVal : String) (ancestors : List (String × String))
    (d : Doc) : List RefPointer :=
  cfg.refFields.filterMap (fun fc =>
    match refTarget d fc.1 with
    | some u => some ⟨u, ancestors ++ [(cfg.idField, pkVal)], fc.2⟩
    | none => none)

/-- Modelled from the spec: the Detail Fetcher resolves one Ref Pointer to
a Detail Record, or fails with a typed error carrying the url, the cause
and the ancestor keys. -/
def fetchDetail (hier : String → ResourceSpec) (api : String → FetchOutcome)
    (p : RefPointer) : Except EngineError DetailRecord :=
  match api p.url with
  | FetchOutcome.err c => Except.error (EngineError.detailFetchError p.url c p.ancestor_keys)
  | FetchOutcome.ok d =>
    match derivePrimaryKeyValue d p.url with
    | none => Except.error (EngineError.keyDerivationError p.url p.ancestor_keys)
    | some v =>
      let cfg := hier p.resource_kind
      let fks := foreignKeysFor cfg p.ancestor_keys
      let pk := (cfg.idField, v) :: fks
      Except.ok ⟨p.resource_kind, pk, fks, augment pk d, childRefs cfg v p.ancestor_keys d⟩

/-- Modelled from the spec: the Traversal Orchestrator drives one branch
of the resource tree from one ref, collecting records and writing per-item
errors to the Failure Sink instead of aborting. -/
def traverseRef (hier : String → ResourceSpec) (api : String → FetchOutcome) :
    Nat → RefPointer → List DetailRecord × List EngineError
  | 0, _ => ([], [])
  | fuel + 1, p =>
    match fetchDetail hier api p with
    | Except.error e => ([], [e])
    | Except.ok r =>
      let sub := r.emitted_refs.map (fun q => traverseRef hier api fuel q)
      (r :: (sub.map Prod.fst).flatten, (sub.map Prod.snd).flatten)

/-- Traversal over a list of sibling refs; branches are independent. -/
def traverseMany (hier : String → ResourceSpec) (api : String → FetchOutcome)
    (fuel : Nat) (ps : List RefPointer) : List DetailRecord × List EngineError :=
  (ps.flatMap (fun p => (traverseRef hier api fuel p).1),
   ps.flatMap (fun p => (traverseRef hier api fuel p).2))

/-- A ref is reachable in the traversal rooted at a seed when it is the
seed itself or is emitted by the record of a reachable ref. -/
inductive ReachableRef (hier : String → ResourceSpec) (api : String → FetchOutcome)
    (seed : RefPointer) : RefPointer → Prop where
  | refl : ReachableRef hier api seed seed
  | step {p : RefPointer} {r : DetailRecord} {q : RefPointer} :
      ReachableRef hier api seed p → fetchDetail hier api p = Except.ok r →
      q ∈ r.emitted_refs → ReachableRef hier api seed q

/-- Configuration record of a page-number paginator, with the fields named
in the repository refactor plan. -/
structure PageNumberPaginatorConfig where
  page_param : String
  total_path : String
  base_page : Nat
  stop_after_empty_page : Bool

/-- The List Client paginator configuration from the repository refactor
plan, section Client Configuration. -/
def listClientPaginator : PageNumberPaginatorConfig :=
  ⟨"page", "pageCount", 1, true⟩

/-- One page request issued by the Paginated Lister: the name of the query
parameter carrying the page number, and the page number sent. -/
structure PageRequest where
  param : String
  page : Nat

/-- Total page count read from a list response under the configured total
path field. -/
def pageTotal (d : Doc) : Nat :=
  match d.lookup listClientPaginator.total_path with
  | some (Doc.num n) => n.toNat
  | _ => 0

/-- Items of a list response, selected under the items key as configured
for the List Client. -/
def pageItems (d : Doc) : List Doc :=
  match d.lookup "items" with
  | some (Doc.arr xs) => xs
  | _ => []

/-- Modelled from the spec: the page loop of the Paginated Lister.  It
requests pages in order, reads the remaining page total from each
response, and stops on an empty page or once the reported total is
reached.  The fuel argument only bounds the recursion. -/
def paginateAux (endpoint : Nat → Doc) : Nat → Nat → List PageRequest × List Doc
  | 0, _ => ([], [])
  | fuel + 1, page =>
    let req : PageRequest := ⟨listClientPaginator.page_param, page⟩
    let d := endpoint page
    let its := pageItems d
    if listClientPaginator.stop_after_empty_page && its.isEmpty then ([req], [])
    else if page < pageTotal d then
      let rest := paginateAux endpoint fuel (page + 1)
      (req :: rest.1, its ++ rest.2)
    else ([req], its)

/-- The Paginated Lister run from the configured base page, returning the
trace of issued page requests and the concatenated items. -/
def paginate (endpoint : Nat → Doc) (fuel : Nat) : List PageRequest × List Doc :=
  paginateAux endpoint fuel listClientPaginator.base_page

/-- The refs a completed Detail Fetcher call submits back to the
Concurrency Scheduler: the emitted refs of its record, or nothing when the
fetch failed. -/
def fetchChildren (hier : String → ResourceSpec) (api : String → FetchOutcome)
    (p : RefPointer) : List RefPointer :=
  match fetchDetail hier api p with
  | Except.ok r => r.emitted_refs
  | Except.error _ => []

/-- Modelled from the spec: the state of the Concurrency Scheduler.  The
pending FIFO queue holds submitted work not yet admitted, running holds
the in-flight Detail Fetcher calls (flagged once they have submitted their
emitted refs), finished holds completed work and submitted logs every
submission. -/
structure SchedState where
  pending : List RefPointer
  running : List (RefPointer × Bool)
  finished : List RefPointer
  submitted : List RefPointer

/-- Modelled from the spec: one transition of the Concurrency Scheduler.
Work is admitted from the head of the queue only when a slot is free; a
running fetcher may submit its emitted refs to the same scheduler while it
still occupies its slot; a fetcher that has submitted its refs may
complete, freeing its slot. -/
inductive SchedStep (hier : String → ResourceSpec) (api : String → FetchOutcome)
    (N : Nat) : SchedState → SchedState → Prop where
  | start {p : RefPointer} {pend : List RefPointer} {run : List (RefPointer × Bool)}
      {fin sub : List RefPointer} :
      run.length < N →
      SchedStep hier api N ⟨p :: pend, run, fin, sub⟩ ⟨pend, (p, false) :: run, fin, sub⟩
  | emit {pend : List RefPointer} {run1 run2 : List (RefPointer × Bool)} {p : RefPointer}
      {fin sub : List RefPointer} :
      SchedStep hier api N ⟨pend, run1 ++ (p, false) :: run2, fin, sub⟩
        ⟨pend ++ fetchChildren hier api p, run1 ++ (p, true) :: run2, fin,
         sub ++ fetchChildren hier api p⟩
  | complete {pend : List RefPointer} {run1 run2 : List (RefPointer × Bool)} {p : RefPointer}
      {fin sub : List RefPointer} :
      SchedStep hier api N ⟨pend, run1 ++ (p, true) :: run2, fin, sub⟩
        ⟨pend, run1 ++ run2, p :: fin, sub⟩

/-- Initial scheduler state for a traversal: the seed refs are submitted
and queued, nothing runs and nothing is finished. -/
def initState (seeds : List RefPointer) : SchedState := ⟨seeds, [], [], seeds⟩

/-- A scheduler state with no queued and no running work: every branch has
reached a terminal state and the orchestrator signals end-of-stream. -/
def Quiescent (s : SchedState) : Prop := s.pending = [] ∧ s.running = []

/-- A maximal run of the scheduler: at every instant either a transition
is taken, or the state is quiescent and stays put. -/
def MaximalRun (hier : String → ResourceSpec) (api : String → FetchOutcome) (N : Nat)
    (run : Nat → SchedState) : Prop :=
  ∀ i, SchedStep hier api N (run i) (run (i + 1)) ∨ (Quiescent (run i) ∧ run (i + 1) = run i)

/-- One ref is a direct child of another when a completed fetch of the
first submits the second. -/
def ChildOf (hier : String → ResourceSpec) (api : String → FetchOutcome)
    (p q : RefPointer) : Prop :=
  q ∈ fetchChildren hier api p

/-- A ref is reachable from the seed set along the child relation. -/
def ReachFromSeeds (hier : String → ResourceSpec) (api : String → FetchOutcome)
    (seeds : List RefPointer) (q : RefPointer) : Prop :=
  ∃ s ∈ seeds, Relation.ReflTransGen (ChildOf hier api) s q

/-- The reachable resource tree of the seed set is finite and acyclic:
some weight assignment satisfies the subtree-size equation on every
reachable ref. -/
def AcyclicWeight (hier : String → ResourceSpec) (api : String → FetchOutcome)
    (seeds : List RefPointer) (wt : RefPointer → Nat) : Prop :=
  ∀ p, ReachFromSeeds hier api seeds p →
    wt p = 1 + ((fetchChildren hier api p).map wt).sum

/-- Every ref held in the scheduler state is reachable from the seeds. -/
def GoodState (hier : String → ResourceSpec) (api : String → FetchOutcome)
    (seeds : List RefPointer) (st : SchedState) : Prop :=
  (∀ p ∈ st.pending, ReachFromSeeds hier api seeds p) ∧
  (∀ pb ∈ st.running, ReachFromSeeds hier api seeds pb.1)

/-- Weight of one in-flight task for the termination measure. -/
def taskWeight (wt : RefPointer → Nat) (pb : RefPointer × Bool) : Nat :=
  if pb.2 then 1 else 3 * wt pb.1 - 1

/-- Termination measure of a scheduler state. -/
def schedMeasure (wt : RefPointer → Nat) (s : SchedState) : Nat :=
  (s.pending.map (fun p => 3 * wt p)).sum + (s.running.map (taskWeight wt)).sum

/-- Multiset conservation statement: everything ever submitted is queued,
running or finished. -/
def SubmittedInv (s : SchedState) : Prop :=
  (s.submitted : Multiset RefPointer) =
    (s.pending : Multiset RefPointer) + (s.running.map Prod.fst : Multiset RefPointer) +
      (s.finished : Multiset RefPointer)

/-- Endpoint path template for the event status sub-resource, from the API
endpoint inventory. -/
def eventStatusPath (eid : String) : List String :=
  ["events", eid, "competitions", eid, "status"]

/-- Endpoint path template for the event situation sub-resource. -/
def eventSituationPath (eid : String) : List String :=
  ["events", eid, "competitions", eid, "situation"]

/-- Endpoint path template for the event odds sub-resource. -/
def eventOddsPath (eid : String) : List String :=
  ["events", eid, "competitions", eid, "odds"]

/-- Endpoint path template for the event broadcasts sub-resource. -/
def eventBroadcastsPath (eid : String) : List String :=
  ["events", eid, "competitions", eid, "broadcasts"]

/-- Endpoint path template for the event plays sub-resource. -/
def eventPlaysPath (eid : String) : List String :=
  ["events", eid, "competitions", eid, "plays"]

/-- Endpoint path template for the event predictor sub-resource. -/
def eventPredictorPath (eid : String) : List String :=
  ["events", eid, "competitions", eid, "predictor"]

/-- Endpoint path template for the event probabilities sub-resource. -/
def eventProbabilitiesPath (eid : String) : List String :=
  ["events", eid, "competitions", eid, "probabilities"]

/-- Endpoint path template for the event power index sub-resource. -/
def eventPowerIndexPath (eid : String) : List String :=
  ["events", eid, "competitions", eid, "powerindex"]

/-- Endpoint path template for the event officials sub-resource. -/
def eventOfficialsPath (eid : String) : List String :=
  ["events", eid, "competitions", eid, "officials"]

/-- Endpoint path template for the per-competitor score sub-resource. -/
def competitorScorePath (eid tid : String) : List String :=
  ["events", eid, "competitions", eid, "competitors", tid, "score"]

/-- Endpoint path template for the per-competitor linescores
sub-resource. -/
def competitorLinescoresPath (eid tid : String) : List String :=
  ["events", eid, "competitions", eid, "competitors", tid, "linescores"]

/-- Endpoint path template for the per-competitor statistics
sub-resource. -/
def competitorStatisticsPath (eid tid : String) : List String :=
  ["events", eid, "competitions", eid, "competitors", tid, "statistics"]

/-- Endpoint path template for the per-competitor leaders sub-resource. -/
def competitorLeadersPath (eid tid : String) : List String :=
  ["events", eid, "competitions", eid, "competitors", tid, "leaders"]

/-- Endpoint path template for the per-competitor roster sub-resource. -/
def competitorRosterPath (eid tid : String) : List String :=
  ["events", eid, "competitions", eid, "competitors", tid, "roster"]

/-- Endpoint path template for the per-competitor records sub-resource. -/
def competitorRecordsPath (eid tid : String) : List String :=
  ["events", eid, "competitions", eid, "competitors", tid, "records"]

/-- The path segment in the competitions position of an event sub-resource
path, the segment at index three after events, the event id and the
competitions literal. -/
def competitionSegment (path : List String) : Option String := path.get? 3

/-- Concrete mocked season detail document used by the witnesses. -/
def doc1 : Doc :=
  Doc.obj [("id", Doc.str "2024"), ("startDate", Doc.str "2023-11-01"),
           ("types", Doc.obj [("$ref", Doc.str "u2")])]

/-- Concrete mocked season type detail document used by the witnesses. -/
def doc2 : Doc := Doc.obj [("id", Doc.str "1")]

/-- Concrete mocked API surface used by the witnesses. -/
def api1 : String → FetchOutcome := fun u =>
  if u = "u1" then FetchOutcome.ok doc1
  else if u = "u2" then FetchOutcome.ok doc2
  else FetchOutcome.err FetchCause.network

/-- Concrete resource hierarchy configuration used by the witnesses. -/
def hier1 : String → ResourceSpec := fun kind =>
  if kind = "season" then ⟨"season_id", fun _ => true, [("types", "season_type")]⟩
  else ⟨"type_id", fun _ => true, []⟩

/-- Concrete seed ref used by the witnesses. -/
def seed1 : RefPointer := ⟨"u1", [], "season"⟩

/-- The season type ref emitted by the season record of the witness
traversal. -/
def q1 : RefPointer := ⟨"u2", [("season_id", "2024")], "season_type"⟩

/-- The season record produced by the witness traversal. -/
def recA : DetailRecord :=
  ⟨"season", [("season_id", "2024")], [],
   Doc.obj [("season_id", Doc.str "2024"), ("id", Doc.str "2024"),
            ("startDate", Doc.str "2023-11-01"),
            ("types", Doc.obj [("$ref", Doc.str "u2")])],
   [q1]⟩

/-- The season type record produced by the witness traversal. -/
def recB : DetailRecord :=
  ⟨"season_type", [("type_id", "1"), ("season_id_fk", "2024")], [("season_id_fk", "2024")],
   Doc.obj [("type_id", Doc.str "1"), ("season_id_fk", Doc.str "2024"), ("id", Doc.str "1")],
   []⟩

/-- Degenerate hierarchy configuration for the scheduler witnesses. -/
def hier0 : String → ResourceSpec := fun _ => ⟨"id", fun _ => true, []⟩

/-- Always-failing API for the scheduler witnesses: every fetch fails, so
no new work is ever submitted. -/
def api0 : String → FetchOutcome := fun _ => FetchOutcome.err FetchCause.network

/-- Single seed ref for the scheduler witnesses. -/
def seed0 : RefPointer := ⟨"u0", [], "k"⟩

/-- Constant weight assignment for the scheduler witnesses. -/
def wt0 : RefPointer → Nat := fun _ => 1

/-- Explicit maximal scheduler run for the scheduler witnesses: admit the
seed, let it submit its empty child list, complete it, then stay
quiescent. -/
def wrun : Nat → SchedState
  | 0 => initState [seed0]
  | 1 => ⟨[], [(seed0, false)], [], [seed0]⟩
  | 2 => ⟨[], [(seed0, true)], [], [seed0]⟩
  | _ + 3 => ⟨[], [], [seed0], [seed0]⟩

/-- A ref whose URL the witness API rejects with a network error. -/
def badRef : RefPointer := ⟨"nope", [], "season"⟩

/-- Concrete mocked paginated list endpoint used by the lister witnesses:
two pages totalling three items, the second page partial. -/
def listApi : Nat → Doc := fun p =>
  if p = 1 then
    Doc.obj [("pageCount", Doc.num 2), ("items", Doc.arr [Doc.str "a", Doc.str "b"])]
  else if p = 2 then
    Doc.obj [("pageCount", Doc.num 2), ("items", Doc.arr [Doc.str "c"])]
  else Doc.obj []

/-! Helper lemmas about the Detail Fetcher. -/

/-- Shape of a successful detail fetch: the record is assembled from the
parsed document and the derived primary key value. -/
theorem fetchDetail_ok_elim {hier : String → ResourceSpec} {api : String → FetchOutcome}
    {p : RefPointer} {r : DetailRecord} (h : fetchDetail hier api p = Except.ok r) :
    ∃ d v, api p.url = FetchOutcome.ok d ∧ derivePrimaryKeyValue d p.url = some v ∧
      r = ⟨p.resource_kind,
           ((hier p.resource_kind).idField, v) :: foreignKeysFor (hier p.resource_kind) p.ancestor_keys,
           foreignKeysFor (hier p.resource_kind) p.ancestor_keys,
           augment (((hier p.resource_kind).idField, v) ::
             foreignKeysFor (hier p.resource_kind) p.ancestor_keys) d,
           childRefs (hier p.resource_kind) v p.ancestor_keys d⟩ := by
  unfold fetchDetail at h
  split at h
  · exact absurd h (by simp)
  next d heq =>
    split at h
    · exact absurd h (by simp)
    next v hv =>
      simp only [Except.ok.injEq] at h
      exact ⟨d, v, heq, hv, h.symm⟩

/-- Each ref emitted by a fetched record inherits the full key chain of
its parent ref with the primary key of the record appended. -/
theorem mem_childRefs_keys {cfg : ResourceSpec} {v : String}
    {anc : List (String × String)} {d : Doc} {q : RefPointer}
    (h : q ∈ childRefs cfg v anc d) : q.ancestor_keys = anc ++ [(cfg.idField, v)] := by
  unfold childRefs at h
  rw [List.mem_filterMap] at h
  obtain ⟨fc, _, hfc⟩ := h
  split at hfc
  · rw [Option.some.injEq] at hfc
    rw [← hfc]
  · cases hfc

/-- A successful fetch derives one primary key value and every emitted ref
appends it to the inherited key chain. -/
theorem emittedRef_keys {hier : String → ResourceSpec} {api : String → FetchOutcome}
    {p : RefPointer} {r : DetailRecord} (h : fetchDetail hier api p = Except.ok r) :
    ∃ v, r.primary_key = ((hier p.resource_kind).idField, v) :: r.foreign_keys ∧
      ∀ q ∈ r.emitted_refs,
        q.ancestor_keys = p.ancestor_keys ++ [((hier p.resource_kind).idField, v)] := by
  obtain ⟨d, v, _, _, rfl⟩ := fetchDetail_ok_elim h
  exact ⟨v, rfl, fun q hq => mem_childRefs_keys hq⟩

/-- The resource kind of a fetched record is the kind of its ref. -/
theorem fetchDetail_ok_kind {hier : String → ResourceSpec} {api : String → FetchOutcome}
    {p : RefPointer} {r : DetailRecord} (h : fetchDetail hier api p = Except.ok r) :
    r.kind = p.resource_kind := by
  obtain ⟨d, v, _, _, rfl⟩ := fetchDetail_ok_elim h
  rfl

/-- The foreign keys of a fetched record are computed by filtering the
inherited ancestor keys for relevance to its kind. -/
theorem fetchDetail_ok_fks {hier : String → ResourceSpec} {api : String → FetchOutcome}
    {p : RefPointer} {r : DetailRecord} (h : fetchDetail hier api p = Except.ok r) :
    r.foreign_keys = foreignKeysFor (hier p.resource_kind) p.ancestor_keys := by
  obtain ⟨d, v, _, _, rfl⟩ := fetchDetail_ok_elim h
  rfl

/-- Every ancestor key of a reachable ref is the primary key head of some
record fetched earlier in the same traversal. -/
theorem ancestorKeys_provenance {hier : String → ResourceSpec} {api : String → FetchOutcome}
    {seed p : RefPointer} (hseed : seed.ancestor_keys = [])
    (h : ReachableRef hier api seed p) :
    ∀ kv ∈ p.ancestor_keys, ∃ q A, ReachableRef hier api seed q ∧
      fetchDetail hier api q = Except.ok A ∧ A.primary_key.head? = some kv := by
  induction h with
  | refl =>
    intro kv hkv
    rw [hseed] at hkv
    cases hkv
  | step hreach hfetch hmem ih =>
    intro kv hkv
    obtain ⟨v, hpk, hkeys⟩ := emittedRef_keys hfetch
    rw [hkeys _ hmem] at hkv
    rcases List.mem_append.mp hkv with h1 | h1
    · exact ih kv h1
    · rw [List.mem_singleton] at h1
      subst h1
      exact ⟨_, _, hreach, hfetch, by rw [hpk]; rfl⟩

/-- Every record collected by the traversal comes from a successful fetch
of a reachable ref. -/
theorem traverse_mem_reachable {hier : String → ResourceSpec} {api : String → FetchOutcome}
    {seed : RefPointer} :
    ∀ (fuel : Nat) (p : RefPointer), ReachableRef hier api seed p →
      ∀ r ∈ (traverseRef hier api fuel p).1,
        ∃ q, ReachableRef hier api seed q ∧ fetchDetail hier api q = Except.ok r := by
  intro fuel
  induction fuel with
  | zero =>
    intro p _ r hr
    simp [traverseRef] at hr
  | succ n ih =>
    intro p hp r hr
    cases hfd : fetchDetail hier api p with
    | error e =>
      simp [traverseRef, hfd] at hr
    | ok rec0 =>
      simp only [traverseRef, hfd, List.mem_cons] at hr
      rcases hr with rfl | hr
      · exact ⟨p, hp, hfd⟩
      · rw [List.mem_flatten] at hr
        obtain ⟨l, hl, hrl⟩ := hr
        rw [List.mem_map] at hl
        obtain ⟨pair, hpair, rfl⟩ := hl
        rw [List.mem_map] at hpair
        obtain ⟨cq, hcq, rfl⟩ := hpair
        exact ih cq (ReachableRef.step hp hfd hcq) r hrl

/-- Claim C1: every Detail Record emitted during a traversal rooted at a
seed has foreign keys equal to the relevance-filtered subset of the
inherited ancestor keys of its ref, and every inherited ancestor key is
the primary key of the corresponding ancestor record exactly as that
ancestor was fetched. -/
theorem claim_c1 (hier : String → ResourceSpec) (api : String → FetchOutcome) (fuel : Nat)
    (seed : RefPointer) (hseed : seed.ancestor_keys = []) (r : DetailRecord)
    (hr : r ∈ (traverseRef hier api fuel seed).1) :
    ∃ p, ReachableRef hier api seed p ∧ fetchDetail hier api p = Except.ok r ∧
      r.foreign_keys = foreignKeysFor (hier r.kind) p.ancestor_keys ∧
      (∀ fk ∈ r.foreign_keys, ∃ kv, kv ∈ p.ancestor_keys ∧
        (hier r.kind).relevantKeys kv.1 = true ∧ fk = (fkName kv.1, kv.2)) ∧
      (∀ kv ∈ p.ancestor_keys, ∃ q A, ReachableRef hier api seed q ∧
        fetchDetail hier api q = Except.ok A ∧ A.primary_key.head? = some kv) := by
  obtain ⟨p, hp, hfd⟩ := traverse_mem_reachable fuel seed ReachableRef.refl r hr
  have hkind : r.kind = p.resource_kind := fetchDetail_ok_kind hfd
  have hfks : r.foreign_keys = foreignKeysFor (hier p.resource_kind) p.ancestor_keys :=
    fetchDetail_ok_fks hfd
  refine ⟨p, hp, hfd, by rw [hkind]; exact hfks, ?_, ancestorKeys_provenance hseed hp⟩
  intro fk hfk
  rw [hfks] at hfk
  unfold foreignKeysFor at hfk
  rw [List.mem_map] at hfk
  obtain ⟨kv, hkv, rfl⟩ := hfk
  rw [List.mem_filter] at hkv
  exact ⟨kv, hkv.1, by rw [hkind]; exact hkv.2, rfl⟩

/-- Witness for claim C1 on the concrete two-level mocked traversal. -/
theorem claim_c1_witness :
    seed1.ancestor_keys = [] ∧ recB ∈ (traverseRef hier1 api1 2 seed1).1 ∧
      (∃ p, ReachableRef hier1 api1 seed1 p ∧ fetchDetail hier1 api1 p = Except.ok recB ∧
        recB.foreign_keys = foreignKeysFor (hier1 recB.kind) p.ancestor_keys ∧
        (∀ fk ∈ recB.foreign_keys, ∃ kv, kv ∈ p.ancestor_keys ∧
          (hier1 recB.kind).relevantKeys kv.1 = true ∧ fk = (fkName kv.1, kv.2)) ∧
        (∀ kv ∈ p.ancestor_keys, ∃ q A, ReachableRef hier1 api1 seed1 q ∧
          fetchDetail hier1 api1 q = Except.ok A ∧ A.primary_key.head? = some kv)) := by
  have hmem : recB ∈ (traverseRef hier1 api1 2 seed1).1 := by
    rw [show (traverseRef hier1 api1 2 seed1).1 = [recA, recB] from rfl]
    exact List.Mem.tail _ (List.Mem.head _)
  exact ⟨rfl, hmem, claim_c1 hier1 api1 2 seed1 rfl recB hmem⟩

/-- Claim C4: a failing detail fetch produces a DetailFetchError carrying
the url, the cause and the ancestor keys; the failed branch emits no
records, and sibling branches before and after it contribute exactly the
records and errors they would contribute anyway. -/
theorem claim_c4 (hier : String → ResourceSpec) (api : String → FetchOutcome) (fuel : Nat)
    (p : RefPointer) (c : FetchCause) (pre post : List RefPointer)
    (hfail : api p.url = FetchOutcome.err c) :
    fetchDetail hier api p = Except.error (EngineError.detailFetchError p.url c p.ancestor_keys) ∧
    traverseRef hier api (fuel + 1) p =
      ([], [EngineError.detailFetchError p.url c p.ancestor_keys]) ∧
    (traverseMany hier api (fuel + 1) (pre ++ p :: post)).1 =
      (traverseMany hier api (fuel + 1) pre).1 ++ (traverseMany hier api (fuel + 1) post).1 ∧
    (traverseMany hier api (fuel + 1) (pre ++ p :: post)).2 =
      (traverseMany hier api (fuel + 1) pre).2 ++
        EngineError.detailFetchError p.url c p.ancestor_keys ::
          (traverseMany hier api (fuel + 1) post).2 := by
  have h1 : fetchDetail hier api p =
      Except.error (EngineError.detailFetchError p.url c p.ancestor_keys) := by
    unfold fetchDetail
    rw [hfail]
  have h2 : traverseRef hier api (fuel + 1) p =
      ([], [EngineError.detailFetchError p.url c p.ancestor_keys]) := by
    simp only [traverseRef, h1]
  have h2a : (traverseRef hier api (fuel + 1) p).1 = [] := by rw [h2]
  have h2b : (traverseRef hier api (fuel + 1) p).2 =
      [EngineError.detailFetchError p.url c p.ancestor_keys] := by rw [h2]
  refine ⟨h1, h2, ?_, ?_⟩ <;>
    simp [traverseMany, List.flatMap_append, List.flatMap_cons, h2a, h2b]

/-- Witness for claim C4: a network failure on one ref leaves the sibling
season branch intact. -/
theorem claim_c4_witness :
    fetchDetail hier1 api1 badRef =
      Except.error (EngineError.detailFetchError badRef.url FetchCause.network
        badRef.ancestor_keys) ∧
    traverseRef hier1 api1 2 badRef =
      ([], [EngineError.detailFetchError badRef.url FetchCause.network badRef.ancestor_keys]) ∧
    (traverseMany hier1 api1 2 ([seed1] ++ badRef :: [])).1 =
      (traverseMany hier1 api1 2 [seed1]).1 ++ (traverseMany hier1 api1 2 []).1 ∧
    (traverseMany hier1 api1 2 ([seed1] ++ badRef :: [])).2 =
      (traverseMany hier1 api1 2 [seed1]).2 ++
        EngineError.detailFetchError badRef.url FetchCause.network badRef.ancestor_keys ::
          (traverseMany hier1 api1 2 []).2 :=
  claim_c4 hier1 api1 1 badRef FetchCause.network [seed1] [] rfl

/-- Claim C6: a successful fetch derives the head of the composite primary
key from the id or number field of the document itself when present and
otherwise from the trailing URL path segment, and when both derivations
fail the outcome is a KeyDerivationError rather than a record. -/
theorem claim_c6 (hier : String → ResourceSpec) (api : String → FetchOutcome)
    (p : RefPointer) (d : Doc) (hd : api p.url = FetchOutcome.ok d) :
    (∀ r, fetchDetail hier api p = Except.ok r →
      ∃ v, derivePrimaryKeyValue d p.url = some v ∧
        r.primary_key = ((hier p.resource_kind).idField, v) :: r.foreign_keys ∧
        (ownIdValue d = some v ∨ (ownIdValue d = none ∧ trailingSegment p.url = some v))) ∧
    (derivePrimaryKeyValue d p.url = none →
      fetchDetail hier api p = Except.error (EngineError.keyDerivationError p.url p.ancestor_keys)) := by
  constructor
  · intro r hr
    obtain ⟨d2, v, hd2, hv, rfl⟩ := fetchDetail_ok_elim hr
    rw [hd] at hd2
    injection hd2 with h
    subst h
    refine ⟨v, hv, rfl, ?_⟩
    unfold derivePrimaryKeyValue at hv
    cases hown : ownIdValue d with
    | some w =>
      rw [hown] at hv
      exact Or.inl hv
    | none =>
      rw [hown] at hv
      exact Or.inr ⟨rfl, hv⟩
  · intro hnone
    simp only [fetchDetail, hd, hnone]

/-- Witness for claim C6 on the mocked season document. -/
theorem claim_c6_witness :
    (∀ r, fetchDetail hier1 api1 seed1 = Except.ok r →
      ∃ v, derivePrimaryKeyValue doc1 seed1.url = some v ∧
        r.primary_key = ((hier1 seed1.resource_kind).idField, v) :: r.foreign_keys ∧
        (ownIdValue doc1 = some v ∨
          (ownIdValue doc1 = none ∧ trailingSegment seed1.url = some v))) ∧
    (derivePrimaryKeyValue doc1 seed1.url = none →
      fetchDetail hier1 api1 seed1 =
        Except.error (EngineError.keyDerivationError seed1.url seed1.ancestor_keys)) :=
  claim_c6 hier1 api1 seed1 doc1 rfl

/-- Lookup in an appended field list skips a block whose keys all differ
from the looked-up name. -/
theorem lookupField_append_of_ne {a b : List (String × Doc)} {name : String}
    (h : ∀ kv ∈ a, kv.1 ≠ name) : lookupField (a ++ b) name = lookupField b name := by
  induction a with
  | nil => rfl
  | cons x rest ih =>
    obtain ⟨k, v⟩ := x
    simp only [List.cons_append, lookupField]
    rw [if_neg (h ⟨k, v⟩ (List.mem_cons_self _ _))]
    exact ih (fun kv hkv => h kv (List.mem_cons_of_mem _ hkv))

/-- Key augmentation leaves the lookup of every non-key field name
unchanged. -/
theorem augment_lookup_frame (keys : List (String × String)) (d : Doc) (name : String)
    (h : name ∉ keys.map Prod.fst) : (augment keys d).lookup name = d.lookup name := by
  cases d with
  | obj fs =>
    simp only [augment, Doc.lookup]
    apply lookupField_append_of_ne
    intro kv hkv
    rw [List.mem_map] at hkv
    obtain ⟨kv0, hkv0, rfl⟩ := hkv
    intro he
    exact h (by rw [List.mem_map]; exact ⟨kv0, hkv0, he⟩)
  | null => rfl
  | bool b => rfl
  | num n => rfl
  | str s => rfl
  | arr xs => rfl

/-- Claim C8: the payload of a successfully fetched record is the parsed
document unchanged except for key augmentation, and every field whose
name is not among the added key fields is looked up unmodified. -/
theorem claim_c8 (hier : String → ResourceSpec) (api : String → FetchOutcome)
    (p : RefPointer) (d : Doc) (r : DetailRecord)
    (hd : api p.url = FetchOutcome.ok d) (hr : fetchDetail hier api p = Except.ok r) :
    r.payload = augment r.primary_key d ∧
    ∀ name, name ∉ r.primary_key.map Prod.fst →
      Doc.lookup r.payload name = Doc.lookup d name := by
  obtain ⟨d2, v, hd2, hv, rfl⟩ := fetchDetail_ok_elim hr
  rw [hd] at hd2
  injection hd2 with h
  subst h
  exact ⟨rfl, fun name hn => augment_lookup_frame _ _ name hn⟩

/-- Witness for claim C8 on the mocked season fetch. -/
theorem claim_c8_witness :
    recA.payload = augment recA.primary_key doc1 ∧
    ∀ name, name ∉ recA.primary_key.map Prod.fst →
      Doc.lookup recA.payload name = Doc.lookup doc1 name :=
  claim_c8 hier1 api1 seed1 doc1 recA rfl rfl

/-- Claim C9: in every event sub-resource path template from the endpoint
inventory the segment in the competitions position is the event id
itself, for the event-level and the per-competitor sub-resources alike. -/
theorem claim_c9 : ∀ eid tid : String,
    (eventStatusPath eid).get? 2 = some "competitions" ∧
    competitionSegment (eventStatusPath eid) = some eid ∧
    competitionSegment (eventSituationPath eid) = some eid ∧
    competitionSegment (eventOddsPath eid) = some eid ∧
    competitionSegment (eventBroadcastsPath eid) = some eid ∧
    competitionSegment (eventPlaysPath eid) = some eid ∧
    competitionSegment (eventPredictorPath eid) = some eid ∧
    competitionSegment (eventProbabilitiesPath eid) = some eid ∧
    competitionSegment (eventPowerIndexPath eid) = some eid ∧
    competitionSegment (eventOfficialsPath eid) = some eid ∧
    (competitorScorePath eid tid).get? 2 = some "competitions" ∧
    competitionSegment (competitorScorePath eid tid) = some eid ∧
    competitionSegment (competitorLinescoresPath eid tid) = some eid ∧
    competitionSegment (competitorStatisticsPath eid tid) = some eid ∧
    competitionSegment (competitorLeadersPath eid tid) = some eid ∧
    competitionSegment (competitorRosterPath eid tid) = some eid ∧
    competitionSegment (competitorRecordsPath eid tid) = some eid := by
  intro eid tid
  and_intros <;> rfl

/-! Helper lemmas about the Paginated Lister. -/

/-- Unfolding lemma for an interval of consecutive naturals. -/
theorem range'_succ_eq (s n : Nat) : List.range' s (n + 1) = s :: List.range' (s + 1) n := rfl

/-- The page loop stops on an empty page, after issuing its request. -/
theorem paginateAux_stop_empty {endpoint : Nat → Doc} {fuel page : Nat}
    (h : pageItems (endpoint page) = []) :
    paginateAux endpoint (fuel + 1) page = ([⟨listClientPaginator.page_param, page⟩], []) := by
  simp [paginateAux, listClientPaginator, h]

/-- The page loop continues to the next page while the reported total is
not yet reached and the page is nonempty. -/
theorem paginateAux_go {endpoint : Nat → Doc} {fuel page : Nat}
    (h : pageItems (endpoint page) ≠ []) (h2 : page < pageTotal (endpoint page)) :
    paginateAux endpoint (fuel + 1) page =
      (⟨listClientPaginator.page_param, page⟩ :: (paginateAux endpoint fuel (page + 1)).1,
       pageItems (endpoint page) ++ (paginateAux endpoint fuel (page + 1)).2) := by
  simp [paginateAux, listClientPaginator, h, h2]

/-- The page loop stops, emitting the final items, once the reported total
is reached. -/
theorem paginateAux_last {endpoint : Nat → Doc} {fuel page : Nat}
    (h : pageItems (endpoint page) ≠ []) (h2 : ¬ page < pageTotal (endpoint page)) :
    paginateAux endpoint (fuel + 1) page =
      ([⟨listClientPaginator.page_param, page⟩], pageItems (endpoint page)) := by
  simp [paginateAux, listClientPaginator, h, h2]

/-- Items collected by the page loop over a well-formed endpoint with k
nonempty pages all reporting total k: the loop concatenates the pages from
the start page through page k. -/
theorem paginateAux_items (endpoint : Nat → Doc) (k : Nat)
    (hcount : ∀ p, 1 ≤ p → p ≤ k → pageTotal (endpoint p) = k)
    (hne : ∀ p, 1 ≤ p → p ≤ k → pageItems (endpoint p) ≠ []) :
    ∀ fuel start : Nat, 1 ≤ start → start ≤ k → k < fuel + start →
      (paginateAux endpoint fuel start).2 =
        (List.range' start (k + 1 - start)).flatMap (fun p => pageItems (endpoint p)) := by
  intro fuel
  induction fuel with
  | zero =>
    intro start h1 h2 h3
    omega
  | succ n ih =>
    intro start h1 h2 h3
    have hnonempty := hne start h1 h2
    by_cases hlt : start < k
    · rw [paginateAux_go hnonempty (by rw [hcount start h1 h2]; exact hlt)]
      have hrec := ih (start + 1) (by omega) (by omega) (by omega)
      have hn : k + 1 - start = (k - start) + 1 := by omega
      have hn2 : k + 1 - (start + 1) = k - start := by omega
      rw [hn2] at hrec
      rw [hn, range'_succ_eq, List.flatMap_cons, hrec]
    · rw [paginateAux_last hnonempty (by rw [hcount start h1 h2]; omega)]
      have hn : k + 1 - start = 1 := by omega
      rw [hn]
      rw [show List.range' start 1 = [start] from rfl]
      simp

/-- Sum of a map that is constant on its list. -/
theorem sum_map_const_on (l : List Nat) (f : Nat → Nat) (m : Nat)
    (h : ∀ x ∈ l, f x = m) : (l.map f).sum = l.length * m := by
  induction l with
  | nil => simp
  | cons a rest ih =>
    simp only [List.map_cons, List.sum_cons, List.length_cons]
    rw [h a (List.mem_cons_self _ _), ih (fun x hx => h x (List.mem_cons_of_mem _ hx))]
    ring

/-- Claim C5: over a mocked list endpoint with k pages of m items each and
a partial last page of r items, the Paginated Lister emits exactly the
concatenation of the pages, of length (k-1)*m + r, without duplication
when the endpoint items are distinct. -/
theorem claim_c5 (endpoint : Nat → Doc) (fuel k m r : Nat)
    (hk : 1 ≤ k) (hm : 1 ≤ m) (hr : 1 ≤ r)
    (hcount : ∀ p, 1 ≤ p → p ≤ k → pageTotal (endpoint p) = k)
    (hfull : ∀ p, 1 ≤ p → p < k → (pageItems (endpoint p)).length = m)
    (hlast : (pageItems (endpoint k)).length = r)
    (hfuel : k ≤ fuel) :
    (paginate endpoint fuel).2 =
      (List.range' 1 k).flatMap (fun p => pageItems (endpoint p)) ∧
    (paginate endpoint fuel).2.length = (k - 1) * m + r ∧
    (((List.range' 1 k).flatMap (fun p => pageItems (endpoint p))).Nodup →
      (paginate endpoint fuel).2.Nodup) := by
  have hne : ∀ p, 1 ≤ p → p ≤ k → pageItems (endpoint p) ≠ [] := by
    intro p h1 h2
    rcases Nat.lt_or_ge p k with h | h
    · have hl := hfull p h1 h
      intro hnil
      rw [hnil] at hl
      simp at hl
      omega
    · have hp : p = k := by omega
      subst hp
      intro hnil
      rw [hnil] at hlast
      simp at hlast
      omega
  have hmain := paginateAux_items endpoint k hcount hne fuel 1 le_rfl hk (by omega)
  have hsimp : k + 1 - 1 = k := by omega
  rw [hsimp] at hmain
  have hitems : (paginate endpoint fuel).2 =
      (List.range' 1 k).flatMap (fun p => pageItems (endpoint p)) := hmain
  refine ⟨hitems, ?_, fun hnd => by rw [hitems]; exact hnd⟩
  rw [hitems, List.length_flatMap]
  simp only [Function.comp_def]
  have hsplit : List.range' 1 k = List.range' 1 (k - 1) ++ [k] := by
    have h0 : k = (k - 1) + 1 := by omega
    have h14 : 1 + 1 * (k - 1) = k := by omega
    rw [h0]
    rw [List.range'_concat 1 (k - 1), h14]
    rw [← h0]
  rw [hsplit, List.map_append, List.sum_append]
  have hconst : ((List.range' 1 (k - 1)).map (fun a => (pageItems (endpoint a)).length)).sum
      = (List.range' 1 (k - 1)).length * m := by
    apply sum_map_const_on
    intro x hx
    rw [List.mem_range'_1] at hx
    exact hfull x hx.1 (by omega)
  rw [hconst]
  simp only [List.map_cons, List.map_nil, List.sum_cons, List.sum_nil, hlast]
  have hlen : (List.range' 1 (k - 1)).length = k - 1 := by simp
  rw [hlen]
  omega

/-- Witness for claim C5 on a concrete two-page mocked endpoint with a
partial second page. -/
theorem claim_c5_witness :
    (paginate listApi 2).2 = (List.range' 1 2).flatMap (fun p => pageItems (listApi p)) ∧
    (paginate listApi 2).2.length = (2 - 1) * 2 + 1 ∧
    (((List.range' 1 2).flatMap (fun p => pageItems (listApi p))).Nodup →
      (paginate listApi 2).2.Nodup) := by
  refine claim_c5 listApi 2 2 2 1 (by omega) (by omega) (by omega) ?_ ?_ rfl (by omega)
  · intro p h1 h2
    interval_cases p <;> rfl
  · intro p h1 h2
    interval_cases p
    rfl

/-- Trace of page requests issued by the page loop from any start page:
the requested page numbers are consecutive from the start page, every
request uses the configured page parameter, and no request follows an
empty page. -/
theorem paginateAux_requests (endpoint : Nat → Doc) :
    ∀ fuel start : Nat,
      (paginateAux endpoint fuel start).1.map (fun rq => rq.page) =
        List.range' start (paginateAux endpoint fuel start).1.length ∧
      (∀ rq ∈ (paginateAux endpoint fuel start).1,
        rq.param = listClientPaginator.page_param) ∧
      (∀ j, j + 1 < (paginateAux endpoint fuel start).1.length →
        pageItems (endpoint (start + j)) ≠ []) := by
  intro fuel
  induction fuel with
  | zero =>
    intro start
    refine ⟨rfl, ?_, ?_⟩
    · intro rq hrq
      simp [paginateAux] at hrq
    · intro j hj
      simp [paginateAux] at hj
  | succ n ih =>
    intro start
    by_cases hemp : pageItems (endpoint start) = []
    · rw [paginateAux_stop_empty hemp]
      refine ⟨rfl, ?_, ?_⟩
      · intro rq hrq
        rw [List.mem_singleton] at hrq
        subst hrq
        rfl
      · intro j hj
        simp at hj
    · by_cases hlt : start < pageTotal (endpoint start)
      · rw [paginateAux_go hemp hlt]
        obtain ⟨ihm, ihp, ihe⟩ := ih (start + 1)
        refine ⟨?_, ?_, ?_⟩
        · simp only [List.map_cons, List.length_cons]
          rw [ihm]
          rfl
        · intro rq hrq
          rcases List.mem_cons.mp hrq with hh | hh
          · subst hh
            rfl
          · exact ihp rq hh
        · intro j hj
          cases j with
          | zero =>
            rw [Nat.add_zero]
            exact hemp
          | succ jj =>
            have harith : start + (jj + 1) = (start + 1) + jj := by omega
            rw [harith]
            apply ihe
            simp only [List.length_cons] at hj
            omega
      · rw [paginateAux_last hemp hlt]
        refine ⟨rfl, ?_, ?_⟩
        · intro rq hrq
          rw [List.mem_singleton] at hrq
          subst hrq
          rfl
        · intro j hj
          simp at hj

/-- Claim C10: the Paginated Lister is configured with base page one, the
page query parameter and the pageCount total field, stops after an empty
page, issues consecutive page numbers starting at one and never issues a
request with a page number below one. -/
theorem claim_c10 (endpoint : Nat → Doc) (fuel : Nat) :
    listClientPaginator.base_page = 1 ∧
    listClientPaginator.page_param = "page" ∧
    listClientPaginator.total_path = "pageCount" ∧
    listClientPaginator.stop_after_empty_page = true ∧
    (paginate endpoint fuel).1.map (fun rq => rq.page) =
      List.range' 1 (paginate endpoint fuel).1.length ∧
    (∀ rq ∈ (paginate endpoint fuel).1, rq.param = "page" ∧ 1 ≤ rq.page) ∧
    (∀ j, j + 1 < (paginate endpoint fuel).1.length →
      pageItems (endpoint (1 + j)) ≠ []) := by
  obtain ⟨hm, hp, he⟩ := paginateAux_requests endpoint fuel 1
  refine ⟨rfl, rfl, rfl, rfl, hm, ?_, he⟩
  intro rq hrq
  refine ⟨hp rq hrq, ?_⟩
  have hmem : rq.page ∈ (paginateAux endpoint fuel 1).1.map (fun rq2 => rq2.page) :=
    List.mem_map_of_mem _ hrq
  rw [hm, List.mem_range'_1] at hmem
  exact hmem.1

/-! Helper lemmas about the Concurrency Scheduler. -/

/-- One scheduler transition never pushes the number of in-flight Detail
Fetcher calls above the bound. -/
theorem schedStep_running_le {hier : String → ResourceSpec} {api : String → FetchOutcome}
    {N : Nat} {s t : SchedState} (h : SchedStep hier api N s t)
    (hb : s.running.length ≤ N) : t.running.length ≤ N := by
  cases h with
  | start hlt => exact hlt
  | emit =>
    simp only [List.length_append, List.length_cons] at hb ⊢
    omega
  | complete =>
    simp only [List.length_append, List.length_cons] at hb ⊢
    omega

/-- Claim C2: in every scheduler state reachable from the initial state of
a traversal with positive worker bound N, at most N Detail Fetcher calls
are in flight, across all resource kinds and tree levels. -/
theorem claim_c2 (hier : String → ResourceSpec) (api : String → FetchOutcome)
    (N : Nat) (seeds : List RefPointer) (s : SchedState) (hN : 0 < N)
    (h : Relation.ReflTransGen (SchedStep hier api N) (initState seeds) s) :
    s.running.length ≤ N := by
  induction h with
  | refl => simp [initState]
  | tail hab hbc ih => exact schedStep_running_le hbc ih

/-- Witness for claim C2 at the initial state of the one-seed traversal. -/
theorem claim_c2_witness : (initState [seed0]).running.length ≤ 1 :=
  claim_c2 hier0 api0 1 [seed0] (initState [seed0]) (by omega) Relation.ReflTransGen.refl

/-- One scheduler transition preserves multiset conservation of submitted
work. -/
theorem schedStep_submittedInv {hier : String → ResourceSpec} {api : String → FetchOutcome}
    {N : Nat} {s t : SchedState} (h : SchedStep hier api N s t)
    (hi : SubmittedInv s) : SubmittedInv t := by
  cases h with
  | start hlt =>
    unfold SubmittedInv at hi ⊢
    simp only [List.map_cons] at hi ⊢
    rw [hi]
    simp only [← Multiset.cons_coe, Multiset.cons_add, Multiset.add_cons]
  | emit =>
    unfold SubmittedInv at hi ⊢
    simp only [List.map_append, List.map_cons, ← Multiset.coe_add] at hi ⊢
    rw [hi]
    abel
  | complete =>
    unfold SubmittedInv at hi ⊢
    simp only [List.map_append, List.map_cons, ← Multiset.coe_add, ← Multiset.cons_coe,
      Multiset.cons_add, Multiset.add_cons] at hi ⊢
    rw [hi]

/-- Multiset conservation holds in every reachable scheduler state. -/
theorem submittedInv_reachable {hier : String → ResourceSpec} {api : String → FetchOutcome}
    {N : Nat} {seeds : List RefPointer} {s : SchedState}
    (h : Relation.ReflTransGen (SchedStep hier api N) (initState seeds) s) :
    SubmittedInv s := by
  induction h with
  | refl =>
    unfold SubmittedInv initState
    simp
  | tail hab hbc ih => exact schedStep_submittedInv hbc ih

/-- One scheduler transition keeps every held ref reachable from the
seeds. -/
theorem schedStep_goodState {hier : String → ResourceSpec} {api : String → FetchOutcome}
    {N : Nat} {seeds : List RefPointer} {s t : SchedState} (h : SchedStep hier api N s t)
    (hg : GoodState hier api seeds s) : GoodState hier api seeds t := by
  obtain ⟨hp, hr⟩ := hg
  cases h with
  | start hlt =>
    constructor
    · intro q hq
      exact hp q (List.mem_cons_of_mem _ hq)
    · intro pb hpb
      rcases List.mem_cons.mp hpb with hh | hh
      · subst hh
        exact hp _ (List.mem_cons_self _ _)
      · exact hr pb hh
  | @emit pend run1 run2 p fin sub =>
    constructor
    · intro q hq
      rcases List.mem_append.mp hq with hq | hq
      · exact hp q hq
      · have hpreach : ReachFromSeeds hier api seeds p :=
          hr (p, false) (List.mem_append_right _ (List.mem_cons_self _ _))
        obtain ⟨s0, hs0, hrt⟩ := hpreach
        exact ⟨s0, hs0, Relation.ReflTransGen.tail hrt hq⟩
    · intro pb hpb
      rcases List.mem_append.mp hpb with hh | hh
      · exact hr pb (List.mem_append_left _ hh)
      · rcases List.mem_cons.mp hh with hh2 | hh2
        · subst hh2
          exact hr (p, false) (List.mem_append_right _ (List.mem_cons_self _ _))
        · exact hr pb (List.mem_append_right _ (List.mem_cons_of_mem _ hh2))
  | complete =>
    constructor
    · intro q hq
      exact hp q hq
    · intro pb hpb
      rcases List.mem_append.mp hpb with hh | hh
      · exact hr pb (List.mem_append_left _ hh)
      · exact hr pb (List.mem_append_right _ (List.mem_cons_of_mem _ hh))

/-- Pulling a constant factor out of a sum of mapped weights. -/
theorem sum_map_three_mul (wt : RefPointer → Nat) (l : List RefPointer) :
    (l.map (fun q => 3 * wt q)).sum = 3 * (l.map wt).sum := by
  induction l with
  | nil => simp
  | cons a rest ih =>
    simp only [List.map_cons, List.sum_cons, ih]
    ring

/-- On a finite acyclic reachable tree, every scheduler transition from a
state holding only reachable refs strictly decreases the termination
measure. -/
theorem schedStep_measure {hier : String → ResourceSpec} {api : String → FetchOutcome}
    {N : Nat} {seeds : List RefPointer} {wt : RefPointer → Nat} {s t : SchedState}
    (hwt : AcyclicWeight hier api seeds wt) (hg : GoodState hier api seeds s)
    (h : SchedStep hier api N s t) : schedMeasure wt t < schedMeasure wt s := by
  obtain ⟨hp, hr⟩ := hg
  cases h with
  | start hlt =>
    have hwp := hwt _ (hp _ (List.mem_cons_self _ _))
    unfold schedMeasure
    simp only [List.map_cons, List.sum_cons, taskWeight]
    simp only [Bool.false_eq_true, if_false]
    omega
  | @emit pend run1 run2 p fin sub =>
    have hpr : ReachFromSeeds hier api seeds p :=
      hr (p, false) (List.mem_append_right _ (List.mem_cons_self _ _))
    have hwp := hwt p hpr
    unfold schedMeasure
    simp only [List.map_append, List.sum_append, List.map_cons, List.sum_cons, taskWeight]
    simp only [Bool.false_eq_true, if_false, if_true]
    simp only [sum_map_three_mul]
    omega
  | complete =>
    unfold schedMeasure
    simp only [List.map_append, List.sum_append, List.map_cons, List.sum_cons, taskWeight]
    simp only [if_true]
    omega

/-- Progress of the scheduler with a positive worker bound: every
non-quiescent state has an enabled transition, in particular a fetcher
occupying a slot can always submit its emitted refs or complete. -/
theorem sched_progress {hier : String → ResourceSpec} {api : String → FetchOutcome}
    {N : Nat} (hN : 0 < N) (st : SchedState) (h : ¬ Quiescent st) :
    ∃ t, SchedStep hier api N st t := by
  obtain ⟨pend, run, fin, sub⟩ := st
  cases run with
  | cons pb rest =>
    obtain ⟨p, b⟩ := pb
    cases b with
    | false => exact ⟨_, @SchedStep.emit hier api N pend [] rest p fin sub⟩
    | true => exact ⟨_, @SchedStep.complete hier api N pend [] rest p fin sub⟩
  | nil =>
    cases pend with
    | nil => exact absurd ⟨rfl, rfl⟩ h
    | cons p rest => exact ⟨_, SchedStep.start (by simpa using hN)⟩

/-- Every maximal scheduler run on a finite acyclic reachable tree reaches
a quiescent state. -/
theorem maximalRun_reaches_quiescent {hier : String → ResourceSpec}
    {api : String → FetchOutcome} {N : Nat} {seeds : List RefPointer} {wt : RefPointer → Nat}
    (hwt : AcyclicWeight hier api seeds wt) (run : Nat → SchedState)
    (h0 : run 0 = initState seeds) (hmax : MaximalRun hier api N run) :
    ∃ i, Quiescent (run i) := by
  have hgood : ∀ i, GoodState hier api seeds (run i) := by
    intro i
    induction i with
    | zero =>
      rw [h0]
      constructor
      · intro p hpmem
        exact ⟨p, hpmem, Relation.ReflTransGen.refl⟩
      · intro pb hpb
        simp [initState] at hpb
    | succ n ih =>
      rcases hmax n with hstep | ⟨hq, heq⟩
      · exact schedStep_goodState hstep ih
      · rw [heq]
        exact ih
  by_contra hnone
  push_neg at hnone
  have hdec : ∀ i, schedMeasure wt (run (i + 1)) < schedMeasure wt (run i) := by
    intro i
    rcases hmax i with hstep | ⟨hq, heq⟩
    · exact schedStep_measure hwt (hgood i) hstep
    · exact absurd hq (hnone i)
  have hbound : ∀ i, schedMeasure wt (run i) + i ≤ schedMeasure wt (run 0) := by
    intro i
    induction i with
    | zero => omega
    | succ n ih =>
      have := hdec n
      omega
  have := hbound (schedMeasure wt (run 0) + 1)
  omega

/-- Claim C3: on a finite acyclic reachable tree every maximal scheduler
run reaches a quiescent state in which the finished work is a permutation
of everything ever submitted, so each submitted Ref Pointer was executed
exactly once, none dropped and none duplicated. -/
theorem claim_c3 (hier : String → ResourceSpec) (api : String → FetchOutcome)
    (N : Nat) (seeds : List RefPointer) (wt : RefPointer → Nat)
    (hN : 0 < N) (hwt : AcyclicWeight hier api seeds wt)
    (run : Nat → SchedState) (h0 : run 0 = initState seeds)
    (hmax : MaximalRun hier api N run) :
    ∃ i, Quiescent (run i) ∧ (run i).finished.Perm (run i).submitted := by
  obtain ⟨i, hq⟩ := maximalRun_reaches_quiescent hwt run h0 hmax
  have hreach : ∀ j, Relation.ReflTransGen (SchedStep hier api N) (initState seeds) (run j) := by
    intro j
    induction j with
    | zero =>
      rw [h0]
    | succ n ih =>
      rcases hmax n with hstep | ⟨_, heq⟩
      · exact Relation.ReflTransGen.tail ih hstep
      · rw [heq]
        exact ih
  have hinv := submittedInv_reachable (hreach i)
  unfold SubmittedInv at hinv
  obtain ⟨hpe, hre⟩ := hq
  rw [hpe, hre] at hinv
  simp only [List.map_nil, Multiset.coe_nil, zero_add] at hinv
  refine ⟨i, ⟨hpe, hre⟩, ?_⟩
  rw [← Multiset.coe_eq_coe]
  exact hinv.symm

/-- Witness for claim C3 on the explicit maximal run of the one-seed
scheduler. -/
theorem claim_c3_witness :
    ∃ i, Quiescent (wrun i) ∧ (wrun i).finished.Perm (wrun i).submitted := by
  apply claim_c3 hier0 api0 1 [seed0] wt0 (by omega) (fun p _ => rfl) wrun rfl
  intro i
  rcases i with _ | _ | _ | n
  · left
    exact SchedStep.start (by simp)
  · left
    exact @SchedStep.emit hier0 api0 1 [] [] [] seed0 [] [seed0]
  · left
    exact @SchedStep.complete hier0 api0 1 [] [] [] seed0 [] [seed0]
  · right
    exact ⟨⟨rfl, rfl⟩, rfl⟩

/-- Claim C7: with a positive worker bound the scheduler never deadlocks,
even while a fetcher occupying a slot submits new work, and on a finite
acyclic reachable tree every maximal run from the seeds reaches the
quiescent state in which every branch is terminal and end-of-stream is
signalled. -/
theorem claim_c7 (hier : String → ResourceSpec) (api : String → FetchOutcome)
    (N : Nat) (seeds : List RefPointer) (wt : RefPointer → Nat)
    (hN : 0 < N) (hwt : AcyclicWeight hier api seeds wt) :
    (∀ st, ¬ Quiescent st → ∃ t, SchedStep hier api N st t) ∧
    (∀ run : Nat → SchedState, run 0 = initState seeds →
      MaximalRun hier api N run → ∃ i, Quiescent (run i)) :=
  ⟨fun st h => sched_progress hN st h,
   fun run h0 hmax => maximalRun_reaches_quiescent hwt run h0 hmax⟩

/-- Witness for claim C7 on the one-seed scheduler. -/
theorem claim_c7_witness :
    (∀ st, ¬ Quiescent st → ∃ t, SchedStep hier0 api0 1 st t) ∧
    (∀ run : Nat → SchedState, run 0 = initState [seed0] →
      MaximalRun hier0 api0 1 run → ∃ i, Quiescent (run i)) :=
  claim_c7 hier0 api0 1 [seed0] wt0 (by omega) (fun p _ => rfl)

end NcaaPipeline
